import Mathlib

/-!
# Verification of the Cis/trans variant-penetrance preparation pipeline

Shallow embedding of the input-preparation and orchestration pipeline of the
repository (sources: `gxg-structlmm-script.py`, `WorkingLMMscript.py`,
`Method2.py`) together with proofs settling the specification claims.

Matrices are represented column-major: a matrix is a list of columns, each
column a list of real numbers.  This matches the pipeline, whose matrix
operations (standardization, column selection, intercept prepending,
1/sqrt(K) scaling) are all column-wise.  Genotype vectors are lists of
integers (`numpy` integer codes, including possible out-of-domain
sentinels).  Floating-point arithmetic is modelled by exact real
arithmetic; a division whose divisor can be zero in the code (where
`numpy` would produce NaN/Inf) is modelled by an `Option`-valued division
that returns `none` exactly when the divisor is zero.
-/

namespace Pipeline

/-! ## Allele Coder (`ensure_minor_allele_coding`)

Source: `gxg-structlmm-script.py` lines 18-33 and `WorkingLMMscript.py`
lines 84-104 (identical logic).  The flipped vector is built from
`np.zeros_like(geno)` with assignments at positions holding 0, 1 or 2:
entry-wise, 0 ↦ 2, 1 ↦ 1, 2 ↦ 0, and anything else ↦ 0 (the untouched
zero of `np.zeros_like`). -/

/-- Entry-wise effect of the flip branch of `ensure_minor_allele_coding`:
`flipped[geno == 0] = 2; flipped[geno == 1] = 1; flipped[geno == 2] = 0`,
all other positions keeping the `np.zeros_like` initial value `0`. -/
def flipEntry (x : ℤ) : ℤ :=
  if x = 0 then 2 else if x = 1 then 1 else if x = 2 then 0 else 0

/-- `np.sum(geno == a)`: number of entries of `v` equal to `a`. -/
def countEq (v : List ℤ) (a : ℤ) : ℕ :=
  v.count a

/-- `ensure_minor_allele_coding` from the source: count 0s and 2s; if
`twos > zeros` return the flipped vector, else return the input. -/
def ensure_minor_allele_coding (v : List ℤ) : List ℤ :=
  if countEq v 2 > countEq v 0 then v.map flipEntry else v

/-- The remap described by the spec's words for the flip branch: every 0
replaced by 2, every 2 replaced by 0, everything else unchanged. -/
def swap02 (x : ℤ) : ℤ :=
  if x = 0 then 2 else if x = 2 then 0 else x

theorem count_map_flipEntry_two (v : List ℤ) :
    countEq (v.map flipEntry) 2 = countEq v 0 := by
  induction v with
  | nil => rfl
  | cons a t ih =>
    by_cases h0 : a = 0
    · subst h0
      simp [countEq, flipEntry, List.count_cons] at ih ⊢
      omega
    · have hflip : flipEntry a ≠ 2 := by
        unfold flipEntry
        split_ifs <;> simp_all
      simp [countEq, List.count_cons, h0, hflip] at ih ⊢
      omega

theorem count_map_flipEntry_zero_ge (v : List ℤ) :
    countEq v 2 ≤ countEq (v.map flipEntry) 0 := by
  induction v with
  | nil => exact Nat.le_refl 0
  | cons a t ih =>
    by_cases h2 : a = 2
    · subst h2
      simp [countEq, flipEntry, List.count_cons] at ih ⊢
      omega
    · have : countEq (a :: t) 2 = countEq t 2 := by
        simp [countEq, List.count_cons, h2]
      rw [this]
      have hle : countEq (t.map flipEntry) 0 ≤
          countEq ((a :: t).map flipEntry) 0 := by
        simp only [List.map_cons, countEq, List.count_cons]
        omega
      exact Nat.le_trans ih hle

/-- C2: the Allele Coder counts entries equal to 0 and to 2; exactly when
the count of 2s strictly exceeds the count of 0s it returns the vector
with every 0 replaced by 2, every 2 replaced by 0 and every 1 unchanged,
and otherwise it returns the input unchanged.  Stated for genotype
vectors, whose entries the data model restricts to {0, 1, 2}. -/
theorem allele_coder_flip_iff (v : List ℤ)
    (hdom : ∀ x ∈ v, x = 0 ∨ x = 1 ∨ x = 2) :
    ensure_minor_allele_coding v =
      if countEq v 2 > countEq v 0 then v.map swap02 else v := by
  unfold ensure_minor_allele_coding
  split_ifs with h
  · exact List.map_congr_left fun x hx => by
      rcases hdom x hx with rfl | rfl | rfl <;> rfl
  · rfl

/-- Witness for C2: on the concrete vector `[2, 2, 0]` (two 2s, one 0)
the coder flips, producing `[0, 0, 2]`. -/
theorem allele_coder_flip_iff_witness :
    ensure_minor_allele_coding [2, 2, 0] = [0, 0, 2] := by
  rw [allele_coder_flip_iff [2, 2, 0] (by decide)]
  decide

/-- C8: whenever the flip triggers (more 2s than 0s), the flipped output
has strictly more 0s than 2s, and a second application of the Allele
Coder returns it unchanged. -/
theorem allele_coder_flip_stable (v : List ℤ)
    (h : countEq v 2 > countEq v 0) :
    countEq (ensure_minor_allele_coding v) 0 >
      countEq (ensure_minor_allele_coding v) 2 ∧
    ensure_minor_allele_coding (ensure_minor_allele_coding v) =
      ensure_minor_allele_coding v := by
  have hv : ensure_minor_allele_coding v = v.map flipEntry := if_pos h
  have h2 : countEq (v.map flipEntry) 2 = countEq v 0 :=
    count_map_flipEntry_two v
  have h0 : countEq v 2 ≤ countEq (v.map flipEntry) 0 :=
    count_map_flipEntry_zero_ge v
  have hgt : countEq (v.map flipEntry) 0 > countEq (v.map flipEntry) 2 := by
    rw [h2]; omega
  constructor
  · rw [hv]; exact hgt
  · rw [hv]
    unfold ensure_minor_allele_coding
    rw [if_neg]
    omega

/-- Witness for C8: the flip on `[2, 2, 0]` yields more 0s than 2s and a
second pass leaves the result unchanged. -/
theorem allele_coder_flip_stable_witness :
    countEq (ensure_minor_allele_coding [2, 2, 0]) 0 >
      countEq (ensure_minor_allele_coding [2, 2, 0]) 2 ∧
    ensure_minor_allele_coding (ensure_minor_allele_coding [2, 2, 0]) =
      ensure_minor_allele_coding [2, 2, 0] :=
  allele_coder_flip_stable [2, 2, 0] (by decide)

/-- C10: when the flip triggers, the output has the same length as the
input, and every input entry outside {0, 1, 2} (for example a
missing-value sentinel `-1`) is mapped to 0, because the flipped vector
is built from `np.zeros_like` with assignments only at positions holding
0, 1 or 2. -/
theorem allele_coder_out_of_domain (v : List ℤ)
    (h : countEq v 2 > countEq v 0) :
    (ensure_minor_allele_coding v).length = v.length ∧
    ∀ (i : ℕ) (x : ℤ), v[i]? = some x → ¬(x = 0 ∨ x = 1 ∨ x = 2) →
      (ensure_minor_allele_coding v)[i]? = some 0 := by
  have hv : ensure_minor_allele_coding v = v.map flipEntry := if_pos h
  rw [hv]
  refine ⟨List.length_map v flipEntry, ?_⟩
  intro i x hx hnx
  rw [List.getElem?_map, hx]
  have hfx : flipEntry x = 0 := by
    unfold flipEntry
    split_ifs <;> simp_all
  simp [hfx]

/-- Witness for C10: on `[2, 2, -1]` the flip triggers, the output keeps
length 3, and the sentinel `-1` at index 2 comes out as 0. -/
theorem allele_coder_out_of_domain_witness :
    (ensure_minor_allele_coding [2, 2, -1]).length = 3 ∧
    (ensure_minor_allele_coding [2, 2, -1])[2]? = some 0 := by
  have h := allele_coder_out_of_domain [2, 2, -1] (by decide)
  exact ⟨h.1, h.2 2 (-1) (by decide) (by decide)⟩

/-! ## Standardizer (`standardize_columns`)

Source: `gxg-structlmm-script.py` lines 11-16 and `WorkingLMMscript.py`
lines 48-60 (identical logic): per column, subtract the mean and divide
by the population standard deviation, the divisor being replaced by 1.0
when the standard deviation is zero (`stds[stds == 0] = 1.0`).
Floating-point arithmetic is modelled by exact real arithmetic; `rdiv`
tracks definedness of a division (`none` = the code divides by zero and
`numpy` produces NaN/Inf). -/

/-- A matrix, column-major: a list of columns. -/
abbrev Mat := List (List ℝ)

/-- `np.mean` of a column (population convention). -/
noncomputable def colMean (c : List ℝ) : ℝ := c.sum / c.length

/-- Population variance of a column (`np.std(...) ** 2`, ddof = 0). -/
noncomputable def colVar (c : List ℝ) : ℝ :=
  (c.map (fun x => (x - colMean c) ^ 2)).sum / c.length

/-- `np.std` of a column: square root of the population variance. -/
noncomputable def colStd (c : List ℝ) : ℝ := Real.sqrt (colVar c)

/-- The divisor actually used by `standardize_columns`:
`stds[stds == 0] = 1.0`. -/
noncomputable def stdGuard (c : List ℝ) : ℝ :=
  if colStd c = 0 then 1 else colStd c

/-- One column of `standardize_columns`: `(data - means) / stds` with the
guarded divisor. -/
noncomputable def standardizeCol (c : List ℝ) : List ℝ :=
  c.map (fun x => (x - colMean c) / stdGuard c)

/-- `standardize_columns` (column-major). -/
noncomputable def standardize_columns (m : Mat) : Mat :=
  m.map standardizeCol

/-- Division with definedness tracking: `none` exactly when the divisor
is zero, i.e. when the floating-point code would produce NaN/Inf. -/
noncomputable def rdiv (a b : ℝ) : Option ℝ :=
  if b = 0 then none else some (a / b)

/-- One column of `standardize_columns` with definedness tracking. -/
noncomputable def standardizeColChecked (c : List ℝ) : List (Option ℝ) :=
  c.map (fun x => rdiv (x - colMean c) (stdGuard c))

theorem sum_map_sub_div (c : List ℝ) (m s : ℝ) :
    (c.map (fun x => (x - m) / s)).sum = (c.sum - c.length * m) / s := by
  induction c with
  | nil => simp
  | cons a t ih =>
    simp only [List.map_cons, List.sum_cons, ih, List.length_cons]
    push_cast
    ring

theorem sum_map_div (c : List ℝ) (f : ℝ → ℝ) (s : ℝ) :
    (c.map (fun x => f x / s)).sum = (c.map f).sum / s := by
  induction c with
  | nil => simp
  | cons a t ih =>
    simp only [List.map_cons, List.sum_cons, ih]
    ring

theorem colVar_nonneg (c : List ℝ) : 0 ≤ colVar c := by
  unfold colVar
  apply div_nonneg
  · apply List.sum_nonneg
    intro x hx
    obtain ⟨y, _, rfl⟩ := List.mem_map.1 hx
    positivity
  · exact Nat.cast_nonneg _

theorem colStd_eq_zero_iff (c : List ℝ) : colStd c = 0 ↔ colVar c = 0 := by
  unfold colStd
  exact Real.sqrt_eq_zero (colVar_nonneg c)

theorem colStd_nil : colStd ([] : List ℝ) = 0 := by
  simp [colStd, colVar, colMean]

theorem ne_nil_of_colStd_ne_zero {c : List ℝ} (h : colStd c ≠ 0) :
    c ≠ [] := by
  intro hc
  subst hc
  exact h colStd_nil

theorem stdGuard_ne_zero (c : List ℝ) : stdGuard c ≠ 0 := by
  unfold stdGuard
  split_ifs with h
  · norm_num
  · exact h

theorem standardizeColChecked_defined (c : List ℝ) :
    standardizeColChecked c = (standardizeCol c).map some := by
  unfold standardizeColChecked standardizeCol rdiv
  rw [List.map_map]
  apply List.map_congr_left
  intro x _
  simp [stdGuard_ne_zero c]

theorem list_sum_nonneg_eq_zero {l : List ℝ} (hn : ∀ x ∈ l, 0 ≤ x)
    (h : l.sum = 0) : ∀ x ∈ l, x = 0 := by
  induction l with
  | nil => simp
  | cons a t ih =>
    have ha : 0 ≤ a := hn a (by simp)
    have ht : ∀ x ∈ t, 0 ≤ x := fun x hx => hn x (by simp [hx])
    have hts : 0 ≤ t.sum := List.sum_nonneg ht
    simp only [List.sum_cons] at h
    have ha0 : a = 0 := by linarith
    intro x hx
    rcases List.mem_cons.1 hx with rfl | hx'
    · exact ha0
    · exact ih ht (by linarith) x hx'

theorem colVar_eq_zero_iff (c : List ℝ) (hne : c ≠ []) :
    colVar c = 0 ↔ ∀ x ∈ c, x = colMean c := by
  have hn : (c.length : ℝ) ≠ 0 := by
    have hl : c.length ≠ 0 := fun h => hne (List.length_eq_zero.1 h)
    exact Nat.cast_ne_zero.mpr hl
  constructor
  · intro h x hx
    unfold colVar at h
    rw [div_eq_zero_iff] at h
    rcases h with h | h
    · have := list_sum_nonneg_eq_zero
        (l := c.map (fun x => (x - colMean c) ^ 2))
        (by
          intro z hz
          obtain ⟨y, _, rfl⟩ := List.mem_map.1 hz
          positivity) h
      have hx2 : (x - colMean c) ^ 2 = 0 :=
        this _ (List.mem_map.2 ⟨x, hx, rfl⟩)
      have := pow_eq_zero_iff (n := 2) (by norm_num) |>.1 hx2
      linarith [this]
    · exact absurd h hn
  · intro h
    unfold colVar
    have : ∀ z ∈ c.map (fun x => (x - colMean c) ^ 2), z = 0 := by
      intro z hz
      obtain ⟨y, hy, rfl⟩ := List.mem_map.1 hz
      rw [h y hy]
      ring
    rw [List.sum_eq_zero this]
    simp

theorem colMean_const (c : List ℝ) (a : ℝ) (hne : c ≠ [])
    (hconst : ∀ x ∈ c, x = a) : colMean c = a := by
  have hn : (c.length : ℝ) ≠ 0 := by
    have hl : c.length ≠ 0 := fun h => hne (List.length_eq_zero.1 h)
    exact Nat.cast_ne_zero.mpr hl
  have hrep : c = List.replicate c.length a :=
    List.eq_replicate_of_mem hconst
  unfold colMean
  rw [hrep, List.sum_replicate, List.length_replicate, nsmul_eq_mul,
    mul_div_assoc, mul_div_cancel₀ _ hn]

theorem standardizeCol_const (c : List ℝ) (a : ℝ)
    (hconst : ∀ x ∈ c, x = a) :
    standardizeCol c = List.replicate c.length 0 ∧ stdGuard c = 1 := by
  by_cases hne : c = []
  · subst hne
    exact ⟨rfl, by simp [stdGuard, colStd_nil]⟩
  · have hmean : colMean c = a := colMean_const c a hne hconst
    have hvar : colVar c = 0 := by
      rw [colVar_eq_zero_iff c hne]
      intro x hx
      rw [hconst x hx, hmean]
    have hstd : colStd c = 0 := (colStd_eq_zero_iff c).2 hvar
    have hguard : stdGuard c = 1 := by simp [stdGuard, hstd]
    refine ⟨?_, hguard⟩
    unfold standardizeCol
    rw [hguard]
    have : ∀ x ∈ c, (x - colMean c) / 1 = 0 := by
      intro x hx
      rw [hconst x hx, hmean]
      ring
    calc c.map (fun x => (x - colMean c) / 1)
        = c.map (fun _ => (0 : ℝ)) := List.map_congr_left this
      _ = List.replicate c.length 0 := List.map_const' c 0

theorem colMean_standardizeCol (c : List ℝ) (hne : c ≠ []) :
    colMean (standardizeCol c) = 0 := by
  have hn : (c.length : ℝ) ≠ 0 := by
    have hl : c.length ≠ 0 := fun h => hne (List.length_eq_zero.1 h)
    exact Nat.cast_ne_zero.mpr hl
  unfold standardizeCol colMean
  rw [List.length_map, sum_map_sub_div]
  have hz : c.sum - (c.length : ℝ) * (c.sum / c.length) = 0 := by
    field_simp
  rw [hz]
  simp

theorem colVar_standardizeCol (c : List ℝ) (hne : c ≠ []) :
    colVar (standardizeCol c) = colVar c / stdGuard c ^ 2 := by
  have hmean : colMean (standardizeCol c) = 0 :=
    colMean_standardizeCol c hne
  unfold colVar
  rw [hmean]
  have hlen : (standardizeCol c).length = c.length := by
    unfold standardizeCol
    exact List.length_map c _
  rw [hlen]
  have hmap : (standardizeCol c).map (fun x => (x - 0) ^ 2) =
      c.map (fun x => ((x - colMean c) ^ 2) / stdGuard c ^ 2) := by
    unfold standardizeCol
    rw [List.map_map]
    apply List.map_congr_left
    intro x _
    simp only [Function.comp_apply, sub_zero]
    rw [div_pow]
  rw [hmap, sum_map_div, div_right_comm]

theorem colStd_standardizeCol (c : List ℝ) (hσ : colStd c ≠ 0) :
    colStd (standardizeCol c) = 1 := by
  have hne : c ≠ [] := ne_nil_of_colStd_ne_zero hσ
  have hguard : stdGuard c = colStd c := by simp [stdGuard, hσ]
  have hvar_ne : colVar c ≠ 0 := fun h => hσ ((colStd_eq_zero_iff c).2 h)
  have hsq : colStd c ^ 2 = colVar c := Real.sq_sqrt (colVar_nonneg c)
  have hv : colVar (standardizeCol c) = 1 := by
    rw [colVar_standardizeCol c hne, hguard, hsq, div_self hvar_ne]
  unfold colStd
  rw [hv]
  exact Real.sqrt_one

theorem standardizeCol_idem (c : List ℝ) :
    standardizeCol (standardizeCol c) = standardizeCol c := by
  by_cases hσ : colStd c = 0
  · by_cases hne : c = []
    · subst hne; rfl
    · have hvar : colVar c = 0 := (colStd_eq_zero_iff c).1 hσ
      have hconst : ∀ x ∈ c, x = colMean c :=
        (colVar_eq_zero_iff c hne).1 hvar
      obtain ⟨h1, _⟩ := standardizeCol_const c (colMean c) hconst
      rw [h1]
      obtain ⟨h2, _⟩ := standardizeCol_const (List.replicate c.length 0) 0
        (fun x hx => List.eq_of_mem_replicate hx)
      rw [h2, List.length_replicate]
  · have hne : c ≠ [] := ne_nil_of_colStd_ne_zero hσ
    have h1 : colStd (standardizeCol c) = 1 := colStd_standardizeCol c hσ
    have hg : stdGuard (standardizeCol c) = 1 := by
      unfold stdGuard
      rw [h1]
      norm_num
    have hm : colMean (standardizeCol c) = 0 :=
      colMean_standardizeCol c hne
    rw [show standardizeCol (standardizeCol c) =
        (standardizeCol c).map (fun x =>
          (x - colMean (standardizeCol c)) / stdGuard (standardizeCol c))
      from rfl]
    rw [hm, hg]
    simp

/-- C9: the Standardizer is idempotent: over exact real arithmetic,
column-wise standardization applied to an already-standardized matrix
returns it exactly, including on zero-variance columns. -/
theorem standardizer_idempotent (mat : Mat) :
    standardize_columns (standardize_columns mat) =
      standardize_columns mat := by
  unfold standardize_columns
  rw [List.map_map]
  exact List.map_congr_left fun c _ => standardizeCol_idem c

/-- C4: on a column whose values are all identical, the Standardizer
substitutes divisor 1.0 for the zero standard deviation, so the output
column is the all-zeros column (centered, unscaled) and every entry of
the output is a defined real number (no NaN/Inf: no division by zero
occurs). -/
theorem standardizer_zero_variance (mat : Mat) (j : ℕ) (c : List ℝ)
    (a : ℝ) (hc : mat[j]? = some c) (hconst : ∀ x ∈ c, x = a) :
    (standardize_columns mat)[j]? = some (List.replicate c.length 0) ∧
    stdGuard c = 1 ∧
    standardizeColChecked c = List.replicate c.length (some 0) := by
  obtain ⟨h1, h2⟩ := standardizeCol_const c a hconst
  refine ⟨?_, h2, ?_⟩
  · unfold standardize_columns
    rw [List.getElem?_map, hc]
    simp [h1]
  · rw [standardizeColChecked_defined, h1, List.map_replicate]

/-- Witness for C4: the constant column `[5, 5]` of a concrete matrix is
standardized to `[0, 0]` with divisor 1 and no undefined entry. -/
theorem standardizer_zero_variance_witness :
    (standardize_columns [[5, 5], [1, 2]])[0]? =
      some (List.replicate 2 (0 : ℝ)) ∧
    stdGuard [5, 5] = 1 ∧
    standardizeColChecked [5, 5] = List.replicate 2 (some 0) := by
  have h := standardizer_zero_variance [[5, 5], [1, 2]] 0 [5, 5] 5
    rfl (by intro x hx; simp at hx; exact hx)
  exact h

/-! ## Response standardization and background matrix scaling

`gxg-structlmm-script.py` lines 111-117 standardize the phenotype inline
as `y = (y - np.mean(y)) / np.std(y)` with NO zero-variance guard (the
guard exists only inside `standardize_columns`).  Lines 139-141 prepare
the background matrix: `E = standardize_columns(E); E = E / np.sqrt(E.shape[1])`
(same in `WorkingLMMscript.py` lines 69-70).  `Method2.py` line 29 passes
`E = HAPS.iloc[:, 1:].to_numpy()` to the engine raw, with neither
standardization nor scaling, and line 28 leaves `y` unstandardized. -/

/-- The inline response standardization of `gxg-structlmm-script.py`
line 117, real-valued (total division). -/
noncomputable def phenotypeStandardize (y : List ℝ) : List ℝ :=
  y.map (fun x => (x - colMean y) / colStd y)

/-- The inline response standardization with definedness tracking: an
entry is `none` exactly when the code divides by the zero standard
deviation of a constant phenotype (`numpy` NaN). -/
noncomputable def phenotypeStandardizeChecked (y : List ℝ) : List (Option ℝ) :=
  y.map (fun x => rdiv (x - colMean y) (colStd y))

/-- The response vector as passed to `StructLMM` in `Method2.py` (lines
28 and 32): `y = PHE[SUBSET].to_numpy()`, used raw — neither centered
nor scaled. -/
def method2EngineY (phe : List ℝ) : List ℝ := phe

/-- C5 (amended): in `gxg-structlmm-script.py` the response vector is
standardized inline as `(y - mean) / std` without the Standardizer's
zero-variance safeguard; whenever the phenotype's standard deviation is
nonzero every entry is defined and y reaches the Test Orchestrator
zero-mean and unit-variance.  In `Method2.py` the response vector is not
standardized at all: it reaches the statistical engine raw. -/
theorem phenotype_standardization_amended :
    (∀ (y : List ℝ), colStd y ≠ 0 →
      phenotypeStandardizeChecked y = (phenotypeStandardize y).map some ∧
      colMean (phenotypeStandardize y) = 0 ∧
      colStd (phenotypeStandardize y) = 1) ∧
    (∀ (phe : List ℝ), method2EngineY phe = phe) := by
  refine ⟨?_, fun _ => rfl⟩
  intro y hσ
  have hne : y ≠ [] := ne_nil_of_colStd_ne_zero hσ
  have heq : phenotypeStandardize y = standardizeCol y := by
    unfold phenotypeStandardize standardizeCol stdGuard
    rw [if_neg hσ]
  refine ⟨?_, ?_, ?_⟩
  · rw [heq]
    unfold phenotypeStandardizeChecked standardizeCol
    rw [List.map_map]
    apply List.map_congr_left
    intro x _
    simp [rdiv, stdGuard, hσ]
  · rw [heq]
    exact colMean_standardizeCol y hne
  · rw [heq]
    exact colStd_standardizeCol y hσ

/-- Witness for the amended C5: the phenotype `[1, 3]` has standard
deviation 1, and its CLI inline standardization is fully defined,
zero-mean and unit-variance, while `Method2.py` passes the same
phenotype to the engine unchanged. -/
theorem phenotype_standardization_amended_witness :
    (phenotypeStandardizeChecked [1, 3] =
        (phenotypeStandardize [1, 3]).map some ∧
      colMean (phenotypeStandardize [1, 3]) = 0 ∧
      colStd (phenotypeStandardize [1, 3]) = 1) ∧
    method2EngineY [1, 3] = [1, 3] := by
  have hvar : colVar [(1 : ℝ), 3] = 1 := by
    norm_num [colVar, colMean]
  have hσ : colStd [(1 : ℝ), 3] ≠ 0 := by
    unfold colStd
    rw [hvar, Real.sqrt_one]
    norm_num
  exact ⟨phenotype_standardization_amended.1 [1, 3] hσ,
    phenotype_standardization_amended.2 [1, 3]⟩

/-- Counterexample to C5 as stated, at both cited sources.  In
`gxg-structlmm-script.py`, on the constant phenotype `[5, 5, 5]` the
inline response standardization divides by the zero standard deviation,
producing only undefined (NaN) entries, whereas the matrix
Standardizer's semantics (zero-variance safeguard) would produce the
defined all-zero column: the response is NOT standardized with the same
per-column semantics as the matrix Standardizer.  In `Method2.py`, the
phenotype `[1, 3]` reaches the engine unchanged, with mean 2 ≠ 0: the
response there is not zero-mean at the point it reaches the engine. -/
theorem phenotype_standardization_counterexample :
    phenotypeStandardizeChecked [5, 5, 5] = [none, none, none] ∧
    standardizeColChecked [5, 5, 5] = [some 0, some 0, some 0] ∧
    (([none, none, none] : List (Option ℝ)) ≠ [some 0, some 0, some 0]) ∧
    method2EngineY [1, 3] = [1, 3] ∧
    colMean [(1 : ℝ), 3] = 2 ∧ (2 : ℝ) ≠ 0 := by
  have hconst : ∀ x ∈ [(5 : ℝ), 5, 5], x = 5 := by
    intro x hx
    simp at hx
    exact hx
  have hmean : colMean [(5 : ℝ), 5, 5] = 5 :=
    colMean_const _ 5 (by simp) hconst
  have hvar : colVar [(5 : ℝ), 5, 5] = 0 := by
    rw [colVar_eq_zero_iff _ (by simp)]
    intro x hx
    rw [hconst x hx, hmean]
  have hσ : colStd [(5 : ℝ), 5, 5] = 0 := (colStd_eq_zero_iff _).2 hvar
  refine ⟨?_, ?_, by simp, rfl, by norm_num [colMean], by norm_num⟩
  · unfold phenotypeStandardizeChecked
    simp [rdiv, hσ]
  · obtain ⟨h1, _⟩ := standardizeCol_const [(5 : ℝ), 5, 5] 5 hconst
    rw [standardizeColChecked_defined, h1]
    rfl

/-- Background matrix preparation of `gxg-structlmm-script.py` lines
139-141 / `WorkingLMMscript.py` lines 69-70: column-wise standardization
followed by a whole-matrix division by `sqrt(E.shape[1])`. -/
noncomputable def backgroundE (E0 : Mat) : Mat :=
  (standardize_columns E0).map
    (fun c => c.map (fun x => x / Real.sqrt (standardize_columns E0).length))

/-- The background matrix as passed to `StructLMM` in `Method2.py`
(lines 29 and 32): `E = HAPS.iloc[:, 1:].to_numpy()`, used raw. -/
def method2EngineE (haps : Mat) : Mat := haps.drop 1

/-- C3 (amended): in the CLI pipeline (and `WorkingLMMscript.py`) every
entry of the background matrix that reaches the engine is the
column-standardized value divided exactly once by `sqrt(K)`, where K is
the number of background columns — the scaling happens after column
standardization and the column count it uses equals the original column
count.  (`Method2.py` violates this; see the counterexample.) -/
theorem background_scaling_amended (E0 : Mat) :
    backgroundE E0 =
      E0.map (fun c => c.map (fun x =>
        ((x - colMean c) / stdGuard c) / Real.sqrt E0.length)) := by
  unfold backgroundE standardize_columns
  rw [List.length_map, List.map_map]
  apply List.map_congr_left
  intro c _
  unfold standardizeCol
  rw [Function.comp_apply, List.map_map]
  rfl

/-- Counterexample to C3 as stated: in `Method2.py` the background
matrix reaching the engine is the raw PC table (identifier column
dropped), which differs from its standardized-and-scaled form: with PC
column `[1, 3]`, the engine receives `[1, 3]`, not `[-1, 1]`. -/
theorem background_scaling_counterexample :
    method2EngineE [[9, 9], [1, 3]] = [[1, 3]] ∧
    backgroundE [[1, 3]] = [[-1, 1]] ∧
    ([[1, 3]] : Mat) ≠ [[-1, 1]] := by
  refine ⟨rfl, ?_, by norm_num⟩
  have hmean : colMean [(1 : ℝ), 3] = 2 := by
    norm_num [colMean]
  have hvar : colVar [(1 : ℝ), 3] = 1 := by
    norm_num [colVar, colMean]
  have hσ : colStd [(1 : ℝ), 3] = 1 := by
    unfold colStd
    rw [hvar, Real.sqrt_one]
  have hg : stdGuard [(1 : ℝ), 3] = 1 := by
    unfold stdGuard
    rw [hσ]
    norm_num
  have hcol : standardizeCol [(1 : ℝ), 3] = [-1, 1] := by
    unfold standardizeCol
    rw [hmean, hg]
    norm_num
  unfold backgroundE standardize_columns
  simp only [List.map_cons, List.map_nil, hcol, List.length_cons,
    List.length_nil]
  norm_num [Real.sqrt_one]

/-! ## Consistency validation and engine invocation

`gxg-structlmm-script.py` lines 166-177: after y, E, M, g are assembled,
`if not (len(y) == E.shape[0] == M.shape[0] == len(g))` print an error
with all four lengths and `sys.exit(1)`; only otherwise is `StructLMM`
constructed.  `Method2.py` lines 28-34 assemble y, E, M, g and construct
and invoke `StructLMM` with no dimension check at all. -/

/-- `shape[0]` of a column-major matrix: the length of its first column
(all columns of a well-formed matrix have equal length). -/
def nRows (m : Mat) : ℕ := (m.headD []).length

/-- Terminal event of a run: either the dimension-mismatch failure
(carrying the four reported lengths, in the order the error message
prints them) or the construction/invocation of the statistical engine
(carrying the dimensions it receives). -/
inductive RunOutcome where
  | dimError (ny nE nM ng : ℕ)
  | engineCalled (ny nE nM ng : ℕ)
deriving DecidableEq

/-- The tail of `main` in `gxg-structlmm-script.py` (lines 166-177): the
chained size check gates the engine call. -/
def gxgRun (y : List ℝ) (E M : Mat) (g : List ℤ) : RunOutcome :=
  if y.length = nRows E ∧ nRows E = nRows M ∧ nRows M = g.length then
    .engineCalled y.length (nRows E) (nRows M) g.length
  else
    .dimError y.length (nRows E) (nRows M) g.length

/-- `np.ones((n, 1))`, as a single column. -/
def onesCol (n : ℕ) : List ℝ := List.replicate n 1

/-- Module body of `Method2.py` (lines 28-34): `y = PHE[SUBSET]`,
`E = HAPS.iloc[:, 1:]`, `M = concat([ones((E.shape[0], 1)), E], axis=1)`,
`g = SNV.iloc[:, 1]`, then `StructLMM(y, M, E)` is constructed and
invoked unconditionally — no dimension check. -/
def method2Run (phe : List ℝ) (haps : Mat) (snv : List ℤ) : RunOutcome :=
  let E := haps.drop 1
  let M := onesCol (nRows E) :: E
  .engineCalled phe.length (nRows E) (nRows M) snv.length

/-- C1 (amended): in `gxg-structlmm-script.py` the pipeline checks, after
assembly and before any engine call, that len(y), E.rows, M.rows and
len(g) are all equal: if any pair differs the run ends in a
dimension-mismatch error reporting all four observed lengths and the
engine is never called, and if all four agree the engine is called.
`Method2.py`, however, invokes the engine unconditionally, with no
dimension check. -/
theorem dimension_check_amended :
    (∀ (y : List ℝ) (E M : Mat) (g : List ℤ),
      (y.length ≠ nRows E ∨ y.length ≠ nRows M ∨ y.length ≠ g.length ∨
       nRows E ≠ nRows M ∨ nRows E ≠ g.length ∨ nRows M ≠ g.length) →
      gxgRun y E M g = .dimError y.length (nRows E) (nRows M) g.length) ∧
    (∀ (y : List ℝ) (E M : Mat) (g : List ℤ),
      y.length = nRows E → nRows E = nRows M → nRows M = g.length →
      gxgRun y E M g =
        .engineCalled y.length (nRows E) (nRows M) g.length) ∧
    (∀ (phe : List ℝ) (haps : Mat) (snv : List ℤ),
      method2Run phe haps snv =
        .engineCalled phe.length (nRows (haps.drop 1))
          (nRows (haps.drop 1)) snv.length) := by
  refine ⟨?_, ?_, ?_⟩
  · intro y E M g hne
    unfold gxgRun
    rw [if_neg]
    intro hall
    obtain ⟨h1, h2, h3⟩ := hall
    rcases hne with h | h | h | h | h | h <;> omega
  · intro y E M g h1 h2 h3
    unfold gxgRun
    rw [if_pos ⟨h1, h2, h3⟩]
  · intro phe haps snv
    unfold method2Run
    simp [nRows, onesCol]

/-- Witness for the amended C1: a run state with len(y) = 2 but 3 rows
elsewhere ends in the dimension error reporting (2, 3, 3, 3) with no
engine call; an all-equal run state reaches the engine; and `Method2.py`
invokes the engine even on a mismatched run state. -/
theorem dimension_check_amended_witness :
    gxgRun [1, 2] [[1, 2, 3]] [[1, 2, 3]] [0, 1, 0] =
      .dimError 2 3 3 3 ∧
    gxgRun [1, 2, 3] [[1, 2, 3]] [[1, 2, 3]] [0, 1, 0] =
      .engineCalled 3 3 3 3 ∧
    method2Run [1, 2] [[0, 0, 0], [1, 2, 3]] [0, 1, 0] =
      .engineCalled 2 3 3 3 := by
  refine ⟨dimension_check_amended.1 _ _ _ _ ?_,
    dimension_check_amended.2.1 _ _ _ _ rfl rfl rfl,
    dimension_check_amended.2.2 _ _ _⟩
  left
  decide

/-- Counterexample to C1 as stated: in `Method2.py` a run state whose
response has length 2 while E, M and g have 3 rows reaches the engine —
no dimension-mismatch failure occurs before the engine call. -/
theorem dimension_check_counterexample :
    method2Run [1, 2] [[0, 0, 0], [1, 2, 3]] [0, 1, 0] =
      .engineCalled 2 3 3 3 ∧ (2 : ℕ) ≠ 3 :=
  ⟨rfl, by decide⟩

/-! ## Design Assembler

`gxg-structlmm-script.py` lines 144-153: with a covariate file,
`M = np.concatenate([np.ones((y.shape[0], 1)), cov_df.iloc[:, 1:]], axis=1)`;
without one, `M = np.ones((y.shape[0], 1))`. -/

/-- The Design Assembler, column-major: the intercept column of length N
followed, when a covariate table is supplied, by its columns with the
first (identifier) column dropped. -/
def buildM (N : ℕ) (cov : Option Mat) : Mat :=
  match cov with
  | some covTab => onesCol N :: covTab.drop 1
  | none => [onesCol N]

/-- C7: M always has the all-ones column of length N first; with no
covariate file M is exactly the N×1 all-ones column; with covariates M
is the ones column followed by the covariate columns (first covariate
column stripped as identifier), unmodified. -/
theorem design_assembler_M (N : ℕ) (covTab : Mat) :
    buildM N none = [List.replicate N 1] ∧
    buildM N (some covTab) = List.replicate N 1 :: covTab.drop 1 ∧
    (buildM N (some covTab)).headD [] = List.replicate N 1 ∧
    (List.replicate N (1 : ℝ)).length = N :=
  ⟨rfl, rfl, rfl, List.length_replicate N 1⟩

/-! ## Column Resolver

`gxg-structlmm-script.py` lines 88-103, the branch with no explicit
`--phenotype-column` override: collect the columns whose lowercased name
contains the substring "phenotype" and take the first; otherwise, if the
table has more than one column, take the second column by position;
otherwise exit with an error (modelled as `none`).  Column names are
lists of characters. -/

/-- The literal substring searched for, `'phenotype'`. -/
def phenoChars : List Char := ['p', 'h', 'e', 'n', 'o', 't', 'y', 'p', 'e']

/-- ASCII lower-casing of one character (`str.lower()` on the column
names appearing here). -/
def lowc (c : Char) : Char :=
  if 'A' ≤ c ∧ c ≤ 'Z' then Char.ofNat (c.toNat + 32) else c

/-- Whether the first list is an initial run of the second. -/
def startsWithChars : List Char → List Char → Bool
  | [], _ => true
  | _ :: _, [] => false
  | a :: as, b :: bs => a == b && startsWithChars as bs

/-- Whether `needle` occurs contiguously in the second list
(Python's `in` on strings). -/
def hasSubChars (needle : List Char) : List Char → Bool
  | [] => needle.isEmpty
  | a :: t => startsWithChars needle (a :: t) || hasSubChars needle t

/-- `'phenotype' in col.lower()`. -/
def phenoMatch (col : List Char) : Bool :=
  hasSubChars phenoChars (col.map lowc)

/-- The Column Resolver from the source (no-override branch): the list
comprehension filters matching columns and `[0]` takes the first; the
fallback takes `columns[1]` when more than one column exists; otherwise
the run fails (`sys.exit(1)`, modelled `none`). -/
def resolvePhenotypeColumn (cols : List (List Char)) : Option (List Char) :=
  match cols.filter phenoMatch with
  | m :: _ => some m
  | [] => if cols.length > 1 then cols[1]? else none

/-- The resolution rule in the claim's words: the first column in table
order whose name matches "phenotype" case-insensitively; else the second
column by position when the table has more than one column; else
failure. -/
def resolverSpec (cols : List (List Char)) : Option (List Char) :=
  match cols.find? phenoMatch with
  | some m => some m
  | none => if 1 < cols.length then cols[1]? else none

theorem filter_head?_eq_find? {α : Type} (p : α → Bool) (l : List α) :
    (l.filter p).head? = l.find? p := by
  induction l with
  | nil => rfl
  | cons a t ih =>
    by_cases h : p a
    · simp [List.filter_cons, h, List.find?_cons, List.head?]
    · simp [List.filter_cons, h, List.find?_cons, ih]

/-- C6: with no explicit override, the Column Resolver selects the first
column (in table order) whose name contains "phenotype"
case-insensitively; if none matches and the table has more than one
column it selects the second column by position; with at most one column
it fails. -/
theorem column_resolver_correct (cols : List (List Char)) :
    resolvePhenotypeColumn cols = resolverSpec cols := by
  unfold resolvePhenotypeColumn resolverSpec
  rw [← filter_head?_eq_find?]
  cases h : cols.filter phenoMatch with
  | nil => simp [h]
  | cons m t => simp [h]
